import Mathlib

/-!
Verification of the contract-generation pipeline of `src/app.py`
(repository `papikohehe/contractwow`).

Strings are modelled as `List Char`, bytes and Unicode code points as `Nat`.
The pure helper `increment_id` (src/app.py, lines 15-33) is embedded
faithfully, including the behaviour of the Python regular-expression search
for a trailing digit run anchored with a dollar sign, which matches the
maximal trailing digit run either at the very end of the string or
immediately before one final newline character.  Digits are modelled as the
ASCII digits; the identifiers the application manipulates are ASCII.

The batch loop (src/app.py, lines 100-159) is embedded as a pure function
of the table, the selection mask, the starting identifier and an abstract,
fallible renderer standing for the external templating collaborator
(`DocxTemplate.render`).  The CSV ingestion (lines 43-46) is modelled in two
parts: the two attempted reads of the uploaded byte stream — which carries
a read position, because the code never rewinds it between the failed
UTF-8 attempt and the legacy-encoding retry — and the default column dtype
inference of the CSV reader combined with the per-value `str` coercion at
lines 114-118.

The file is organised as definitions first, then the supporting lemmas,
then one theorem per specification claim.
-/

namespace ContractWow

/-! ## Definitions -/

/-- The character for the decimal digit `d` (meaningful for `d < 10`). -/
def digitChar (d : Nat) : Char := Char.ofNat (48 + d)

/-- Fuel-based decimal rendering of a number, most significant digit first;
renders nothing for zero.  Any `fuel ≥ n` renders `n` completely. -/
def toDigitsAux : Nat → Nat → List Char
  | 0, _ => []
  | _ + 1, 0 => []
  | fuel + 1, n + 1 => toDigitsAux fuel ((n + 1) / 10) ++ [digitChar ((n + 1) % 10)]

/-- Python's `str` on a non-negative integer: decimal digits without sign,
and the single digit zero for zero. -/
def natRepr (n : Nat) : List Char :=
  if n = 0 then ['0'] else toDigitsAux n n

/-- Numeric value of a digit string (most significant digit first); models
Python's `int` applied to the matched digit run (src/app.py, line 21). -/
def digitsVal (l : List Char) : Nat :=
  l.foldl (fun a c => 10 * a + (c.toNat - 48)) 0

/-- Python's `str.zfill` on a digit string: left-pad with zeros to width
`w` (no sign handling is needed, the code only applies it to `str` of a
non-negative integer; src/app.py, line 27). -/
def zfill (w : Nat) (s : List Char) : List Char :=
  List.replicate (w - s.length) '0' ++ s

/-- All characters of the string are decimal digits. -/
def allDigits (l : List Char) : Bool := l.all Char.isDigit

/-- The maximal suffix of `l` consisting of decimal digits. -/
def takeTrailingDigits (l : List Char) : List Char :=
  (l.reverse.takeWhile Char.isDigit).reverse

/-- Everything before the maximal trailing digit run of `l`. -/
def dropTrailingDigits (l : List Char) : List Char :=
  (l.reverse.dropWhile Char.isDigit).reverse

/-- Whether the first character exists and is a decimal digit. -/
def headIsDigit : List Char → Bool
  | [] => false
  | c :: _ => c.isDigit

/-- Whether the last character exists and is a decimal digit. -/
def endsInDigit (l : List Char) : Bool := headIsDigit l.reverse

/-- Result of the regular-expression search of src/app.py, line 17: it
looks for a non-empty digit run ending either at the end of the string or
directly before one final newline (the dollar anchor of a Python search
matches in both positions), and reports the text before the match, the
matched digit run, and the text after the match (empty or one newline). -/
def pyMatch (s : List Char) : Option (List Char × List Char × List Char) :=
  if takeTrailingDigits s ≠ [] then
    some (dropTrailingDigits s, takeTrailingDigits s, [])
  else if s.getLast? = some '\n' ∧ takeTrailingDigits s.dropLast ≠ [] then
    some (dropTrailingDigits s.dropLast, takeTrailingDigits s.dropLast, ['\n'])
  else
    none

/-- The Identifier Sequencer (src/app.py, lines 15-33).  With a digit run
present: replace the run by the old value plus `index`, rendered in decimal
and zero-padded to the old width.  Otherwise: append a dash and the
one-based index. -/
def increment_id (start_id : List Char) (index : Nat) : List Char :=
  match pyMatch start_id with
  | some (p, d, t) =>
      p ++ (zfill d.length (natRepr (digitsVal d + index)) ++ t)
  | none => start_id ++ ('-' :: natRepr (index + 1))

/-- Filename sanitisation of src/app.py, line 145: both kinds of slashes
become dashes (two sequential `str.replace` calls, equivalent to one
character map since the first never produces a backslash). -/
def sanitizeChar (c : Char) : Char :=
  if c = '/' ∨ c = '\\' then '-' else c

/-- Slash sanitisation applied to a whole entry name. -/
def sanitize (l : List Char) : List Char := l.map sanitizeChar

/-- The five mapped values of one selected row after the per-value `str`
coercion of src/app.py, lines 114-118 (`p_prefix`, `p_name`, `p_surname`,
`p_id`, `p_address`). -/
structure RowData where
  pfx : List Char
  pName : List Char
  pSurname : List Char
  pId : List Char
  pAddress : List Char
deriving DecidableEq

/-- The rendering context of src/app.py, lines 122-130, as the literal
association list the Python dict is built from: the seven fixed keys, with
`contract_id` the sequence identifier and `sign_name` the single-space
concatenation of prefix, given name and surname (line 119). -/
def buildContext (cid : List Char) (r : RowData) : List (List Char × List Char) :=
  [(("contract_id").data, cid),
   (("prefix").data, r.pfx),
   (("name").data, r.pName),
   (("surname").data, r.pSurname),
   (("id_card").data, r.pId),
   (("address").data, r.pAddress),
   (("sign_name").data, r.pfx ++ (' ' :: r.pName) ++ (' ' :: r.pSurname))]

/-- Archive entry naming of src/app.py, lines 143-145: the sequence
identifier, an underscore, the given name, the extension, then slash
sanitisation over the whole name. -/
def mkFilename (cid pName : List Char) : List Char :=
  sanitize (cid ++ ('_' :: pName) ++ (".docx").data)

/-- One abstract rendered document (a byte blob). -/
abbrev Doc := List Nat

/-- An abstract renderer: the external templating collaborator invoked at
src/app.py, lines 133-139, which may fail with a Python exception carrying
a message. -/
abbrev Renderer := List (List Char × List Char) → Except (List Char) Doc

/-- The generation loop of src/app.py, lines 108-147, starting at loop
counter `i`: per selected row, derive the identifier, build the context,
render, and name the entry.  The first exception aborts the loop; entries
produced before it are never delivered (the download button of line 154 is
never reached), which the model reflects by returning only the error. -/
def processRows (render : Renderer) (startId : List Char) :
    Nat → List RowData → Except (List Char) (List (List Char × Doc))
  | _, [] => Except.ok []
  | i, r :: rest =>
    match render (buildContext (increment_id startId i) r) with
    | Except.error e => Except.error e
    | Except.ok doc =>
      match processRows render startId (i + 1) rest with
      | Except.error e => Except.error e
      | Except.ok tail =>
          Except.ok ((mkFilename (increment_id startId i) r.pName, doc) :: tail)

/-- Observable outcome of pressing the generate button (src/app.py, lines
99-162): the empty-selection warning, the outer error banner, or the
downloadable archive (its entries, the reported count, and the reported
starting identifier of the success message, line 152). -/
inductive GenOutcome where
  | emptySelection : GenOutcome
  | failure : List Char → GenOutcome
  | ok : List (List Char × Doc) → Nat → List Char → GenOutcome
deriving DecidableEq

/-- Row selection of src/app.py, line 94: a boolean mask over the table
(`edited_df[edited_df.Select]`), which keeps the original table row order
whatever order the checkboxes were clicked in. -/
def selectedRows (table : List RowData) (select : List Bool) : List RowData :=
  ((table.zip select).filter fun rs => rs.2).map fun rs => rs.1

/-- The Batch Orchestrator (src/app.py, lines 99-162): warn on an empty
selection before any generation work; otherwise run the loop, and surface
any exception through the outermost handler of line 162 as the single
message built there. -/
def generate (render : Renderer) (startId : List Char)
    (table : List RowData) (select : List Bool) : GenOutcome :=
  let rows := selectedRows table select
  if rows.length = 0 then GenOutcome.emptySelection
  else
    match processRows render startId 0 rows with
    | Except.error e => GenOutcome.failure (("An error occurred: ").data ++ e)
    | Except.ok entries => GenOutcome.ok entries rows.length startId

/-- A value of one CSV cell as stored after ingestion: the CSV reader at
src/app.py, line 44 is called with its default dtype inference, so a
column of integer-looking cells is stored as integers, everything else as
text. -/
inductive PdValue where
  | int : Nat → PdValue
  | str : List Char → PdValue
deriving DecidableEq

/-- The `str` coercion of src/app.py, lines 114-118 applied to a stored
cell value: an integer renders as its decimal form, text is unchanged. -/
def pdStr : PdValue → List Char
  | PdValue.int n => natRepr n
  | PdValue.str s => s

/-- Whether a raw CSV cell looks like a non-negative integer. -/
def isIntCell (s : List Char) : Bool := allDigits s && !s.isEmpty

/-- Default dtype inference of the CSV reader invoked at src/app.py,
line 44, restricted to the integer case that matters here: a column whose
every raw cell is a plain digit string is parsed as integers (dropping the
textual form, hence any leading zeros); otherwise the cells stay text. -/
def inferColumn (cells : List (List Char)) : List PdValue :=
  if cells.all isIntCell then cells.map (fun c => PdValue.int (digitsVal c))
  else cells.map PdValue.str

/-- A UTF-8 continuation byte. -/
abbrev utf8Cont (b : Nat) : Prop := 0x80 ≤ b ∧ b ≤ 0xBF

/-- Allowed second byte of a three-byte UTF-8 sequence (excludes overlong
forms and surrogates). -/
abbrev utf8Snd3 (b c : Nat) : Prop :=
  if b = 0xE0 then 0xA0 ≤ c ∧ c ≤ 0xBF
  else if b = 0xED then 0x80 ≤ c ∧ c ≤ 0x9F
  else 0x80 ≤ c ∧ c ≤ 0xBF

/-- Allowed second byte of a four-byte UTF-8 sequence (excludes overlong
forms and code points above U+10FFFF). -/
abbrev utf8Snd4 (b c : Nat) : Prop :=
  if b = 0xF0 then 0x90 ≤ c ∧ c ≤ 0xBF
  else if b = 0xF4 then 0x80 ≤ c ∧ c ≤ 0x8F
  else 0x80 ≤ c ∧ c ≤ 0xBF

/-- Strict UTF-8 decoding of a byte payload to code points, `none` when the
payload is not valid UTF-8; models the first decode attempt of src/app.py,
line 44. -/
def utf8Decode : List Nat → Option (List Nat)
  | [] => some []
  | b :: rest =>
    if b ≤ 0x7F then (utf8Decode rest).map (fun cs => b :: cs)
    else
      match rest with
      | [] => none
      | c :: rest2 =>
        if 0xC2 ≤ b ∧ b ≤ 0xDF ∧ utf8Cont c then
          (utf8Decode rest2).map
            (fun cs => ((b - 0xC0) * 0x40 + (c - 0x80)) :: cs)
        else
          match rest2 with
          | [] => none
          | d :: rest3 =>
            if 0xE0 ≤ b ∧ b ≤ 0xEF ∧ utf8Snd3 b c ∧ utf8Cont d then
              (utf8Decode rest3).map
                (fun cs =>
                  ((b - 0xE0) * 0x1000 + (c - 0x80) * 0x40 + (d - 0x80)) :: cs)
            else
              match rest3 with
              | [] => none
              | e :: rest4 =>
                if 0xF0 ≤ b ∧ b ≤ 0xF4 ∧ utf8Snd4 b c ∧ utf8Cont d ∧ utf8Cont e then
                  (utf8Decode rest4).map
                    (fun cs =>
                      ((b - 0xF0) * 0x40000 + (c - 0x80) * 0x1000 +
                        (d - 0x80) * 0x40 + (e - 0x80)) :: cs)
                else none

/-- One byte of the legacy Thai single-byte encoding as implemented by the
codec the second decode attempt of src/app.py, line 46 uses: ASCII and the
C1 control positions pass through, the two Thai ranges map linearly into
the U+0E01 block, and the undefined positions (0xA0, 0xDB-0xDE, 0xFC-0xFF)
fail. -/
def tis620Byte (b : Nat) : Option Nat :=
  if b ≤ 0x9F then some b
  else if (0xA1 ≤ b ∧ b ≤ 0xDA) ∨ (0xDF ≤ b ∧ b ≤ 0xFB) then some (b + 0x0D60)
  else none

/-- Decoding of a whole payload under the legacy Thai encoding. -/
def tis620Decode : List Nat → Option (List Nat)
  | [] => some []
  | b :: rest =>
    match tis620Byte b with
    | none => none
    | some c => (tis620Decode rest).map (fun cs => c :: cs)

/-- The uploaded file object: a byte payload together with the current
read position.  The upload widget hands the stream over at position zero;
nothing in src/app.py ever calls `seek(0)` on it between the two read
attempts of lines 43-46. -/
structure ByteStream where
  data : List Nat
  pos : Nat
deriving DecidableEq

/-- Bytes still ahead of the read position. -/
def ByteStream.remaining (s : ByteStream) : List Nat := s.data.drop s.pos

/-- Result of one `pd.read_csv` call: a parsed table (kept abstract as its
decoded text), the decode exception the chosen codec raises on invalid
bytes, or the reader's empty-data exception when there is nothing left to
parse. -/
inductive ReadResult where
  | table : List Nat → ReadResult
  | unicodeError : ReadResult
  | emptyDataError : ReadResult
deriving DecidableEq

/-- One `pd.read_csv(stream, encoding)` call on the live stream: it reads
the bytes ahead of the current position and consumes the stream to its end
(the reader's text wrapper buffers the whole remainder before the decode
error for these payload sizes surfaces).  Nothing to read raises the
empty-data error; undecodable bytes raise the decode error; otherwise the
decoded text is parsed. -/
def readCsvAttempt (dec : List Nat → Option (List Nat)) (s : ByteStream) :
    ReadResult × ByteStream :=
  let bytes := s.remaining
  let s2 : ByteStream := ⟨s.data, s.data.length⟩
  if bytes.isEmpty then (ReadResult.emptyDataError, s2)
  else
    match dec bytes with
    | some t => (ReadResult.table t, s2)
    | none => (ReadResult.unicodeError, s2)

/-- Observable outcome of table ingestion at the outer handler: decoded
text, the propagated decode error, or the propagated empty-data error. -/
inductive CsvOutcome where
  | ok : List Nat → CsvOutcome
  | decodingError : CsvOutcome
  | emptyDataError : CsvOutcome
deriving DecidableEq

/-- The try/except of src/app.py, lines 43-46, on the uploaded stream: try
`pd.read_csv` with UTF-8; only its decode error is caught, and the retry
with the legacy Thai encoding runs on the very same stream object — which
the failed first attempt consumed and which the code never rewinds — so the
retry reads from the end-of-stream position, not from the start.  Any
exception of the retry (or a non-decode exception of the first attempt)
propagates to the outer handler of line 162. -/
def readCsv (payload : List Nat) : CsvOutcome :=
  match readCsvAttempt utf8Decode ⟨payload, 0⟩ with
  | (ReadResult.table t, _) => CsvOutcome.ok t
  | (ReadResult.emptyDataError, _) => CsvOutcome.emptyDataError
  | (ReadResult.unicodeError, s1) =>
    match readCsvAttempt tis620Decode s1 with
    | (ReadResult.table t, _) => CsvOutcome.ok t
    | (ReadResult.emptyDataError, _) => CsvOutcome.emptyDataError
    | (ReadResult.unicodeError, _) => CsvOutcome.decodingError

/-- A row whose mapped given-name column holds `nm` and whose other mapped
columns are empty; used to instantiate the orchestrator theorems. -/
def demoRow (nm : List Char) : RowData := RowData.mk [] nm [] [] []

/-- A renderer that always succeeds with an empty document. -/
def renderOk : Renderer := fun _ => Except.ok []

/-- A renderer that fails with message `boom` exactly on rows whose given
name is `BAD`; used to exercise the failure path of the orchestrator. -/
def renderDemo : Renderer := fun ctx =>
  if ctx.lookup (("name").data) = some (("BAD").data) then
    Except.error (("boom").data)
  else Except.ok []

/-- A three-row demonstration table. -/
def table3 : List RowData :=
  [demoRow (("a").data), demoRow (("b").data), demoRow (("c").data)]

/-- The archive entries produced for `table3` from start `CT-001` under the
always-succeeding renderer. -/
def entries3 : List (List Char × Doc) :=
  [((("CT-001_a.docx").data), []),
   ((("CT-002_b.docx").data), []),
   ((("CT-003_c.docx").data), [])]

/-! ## Supporting lemmas: decimal rendering and parsing -/

theorem digitChar_isDigit {d : Nat} (h : d < 10) : (digitChar d).isDigit = true := by
  interval_cases d <;> decide

theorem digitChar_toNat {d : Nat} (h : d < 10) : (digitChar d).toNat = 48 + d := by
  interval_cases d <;> decide

theorem toDigitsAux_eq {fuel n : Nat} (h : n ≤ fuel) :
    toDigitsAux fuel n = ((Nat.digits 10 n).map digitChar).reverse := by
  induction fuel generalizing n with
  | zero =>
    interval_cases n
    simp [toDigitsAux]
  | succ fuel ih =>
    cases n with
    | zero => simp [toDigitsAux]
    | succ m =>
      have hdiv : (m + 1) / 10 ≤ fuel := by
        have := Nat.div_lt_self (Nat.succ_pos m) (by norm_num : 1 < 10)
        omega
      rw [toDigitsAux, ih hdiv,
        Nat.digits_def' (by norm_num : 1 < 10) (Nat.succ_pos m)]
      simp

theorem natRepr_eq {n : Nat} (h : n ≠ 0) :
    natRepr n = ((Nat.digits 10 n).map digitChar).reverse := by
  rw [natRepr, if_neg h, toDigitsAux_eq (Nat.le_refl n)]

theorem natRepr_ne_nil (n : Nat) : natRepr n ≠ [] := by
  by_cases h : n = 0
  · subst h; decide
  · rw [natRepr_eq h]
    simp [Nat.digits_ne_nil_iff_ne_zero.mpr h]

theorem allDigits_natRepr (n : Nat) : allDigits (natRepr n) = true := by
  by_cases h : n = 0
  · subst h; decide
  · rw [natRepr_eq h, allDigits, List.all_reverse, List.all_eq_true]
    intro c hc
    rcases List.mem_map.mp hc with ⟨d, hd, rfl⟩
    exact digitChar_isDigit (Nat.digits_lt_base' (b := 8) hd)

theorem foldl_digitsVal (a : Nat) (l : List Char) :
    l.foldl (fun a c => 10 * a + (c.toNat - 48)) a = a * 10 ^ l.length + digitsVal l := by
  induction l generalizing a with
  | nil => simp [digitsVal]
  | cons c t ih =>
    have h0 : digitsVal (c :: t) = (c.toNat - 48) * 10 ^ t.length + digitsVal t := by
      rw [digitsVal, List.foldl_cons, ih]
      ring_nf
    rw [List.foldl_cons, ih, h0, List.length_cons, pow_succ]
    ring

theorem digitsVal_append (a b : List Char) :
    digitsVal (a ++ b) = digitsVal a * 10 ^ b.length + digitsVal b := by
  rw [digitsVal, List.foldl_append, ← digitsVal, foldl_digitsVal]

theorem digitsVal_replicate_zero (k : Nat) :
    digitsVal (List.replicate k '0') = 0 := by
  induction k with
  | zero => rfl
  | succ k ih =>
    rw [List.replicate_succ, digitsVal, List.foldl_cons]
    simpa [digitsVal] using ih

theorem digitsVal_zfill (w : Nat) (s : List Char) :
    digitsVal (zfill w s) = digitsVal s := by
  rw [zfill, digitsVal_append, digitsVal_replicate_zero]
  ring

theorem digitsVal_map_digitChar (ds : List Nat) (h : ∀ d ∈ ds, d < 10) :
    digitsVal ((ds.map digitChar).reverse) = Nat.ofDigits 10 ds := by
  induction ds with
  | nil => rfl
  | cons d tl ih =>
    have hd : d < 10 := h d (List.mem_cons_self d tl)
    have htl : ∀ x ∈ tl, x < 10 := fun x hx => h x (List.mem_cons_of_mem d hx)
    rw [List.map_cons, List.reverse_cons, digitsVal_append, ih htl,
      Nat.ofDigits_cons]
    have hone : digitsVal [digitChar d] = d := by
      rw [digitsVal, List.foldl_cons, List.foldl_nil, digitChar_toNat hd]
      omega
    rw [hone]
    simp
    ring

theorem digitsVal_natRepr (n : Nat) : digitsVal (natRepr n) = n := by
  by_cases h : n = 0
  · subst h; decide
  · rw [natRepr_eq h,
      digitsVal_map_digitChar _ (fun d hd => Nat.digits_lt_base' (b := 8) hd),
      Nat.ofDigits_digits]

theorem natRepr_injective {m n : Nat} (h : natRepr m = natRepr n) : m = n := by
  have := congrArg digitsVal h
  rwa [digitsVal_natRepr, digitsVal_natRepr] at this

theorem natRepr_length_mono {m n : Nat} (h : m ≤ n) :
    (natRepr m).length ≤ (natRepr n).length := by
  by_cases hm : m = 0
  · subst hm
    have h1 : (natRepr 0).length = 1 := by decide
    have h2 : (natRepr n).length ≠ 0 := by
      simpa [List.length_eq_zero] using natRepr_ne_nil n
    omega
  · have hn : n ≠ 0 := by omega
    rw [natRepr_eq hm, natRepr_eq hn]
    simp only [List.length_reverse, List.length_map]
    rw [Nat.digits_len 10 m (by norm_num) hm, Nat.digits_len 10 n (by norm_num) hn]
    exact Nat.succ_le_succ (Nat.log_mono_right h)

theorem zfill_length (w : Nat) (s : List Char) :
    (zfill w s).length = max w s.length := by
  rw [zfill, List.length_append, List.length_replicate]
  omega

theorem zfill_of_le {w : Nat} {s : List Char} (h : w ≤ s.length) :
    zfill w s = s := by
  rw [zfill, Nat.sub_eq_zero_of_le h, List.replicate_zero, List.nil_append]

theorem zfill_ne_nil (w : Nat) {s : List Char} (h : s ≠ []) : zfill w s ≠ [] := by
  intro hc
  exact h (List.append_eq_nil.mp hc).2

theorem allDigits_zfill (w : Nat) {s : List Char} (h : allDigits s = true) :
    allDigits (zfill w s) = true := by
  rw [zfill, allDigits, List.all_append]
  refine Bool.and_eq_true_iff.mpr ⟨?_, h⟩
  rw [List.all_eq_true]
  intro c hc
  rw [List.eq_of_mem_replicate hc]
  decide

theorem zfill_pad_absorb {w a : Nat} (s : List Char) (ha : a ≤ s.length) :
    zfill (max w a) s = zfill w s := by
  rw [zfill, zfill]
  have : max w a - s.length = w - s.length := by omega
  rw [this]

/-! ## Supporting lemmas: the trailing digit run -/

theorem dropTrailingDigits_append_takeTrailingDigits (l : List Char) :
    dropTrailingDigits l ++ takeTrailingDigits l = l := by
  rw [dropTrailingDigits, takeTrailingDigits, ← List.reverse_append,
    List.takeWhile_append_dropWhile, List.reverse_reverse]

theorem allDigits_takeTrailingDigits (l : List Char) :
    allDigits (takeTrailingDigits l) = true := by
  rw [takeTrailingDigits, allDigits, List.all_reverse, List.all_eq_true]
  intro c hc
  exact List.mem_takeWhile_imp hc

theorem headIsDigit_dropWhile (l : List Char) :
    headIsDigit (l.dropWhile Char.isDigit) = false := by
  induction l with
  | nil => rfl
  | cons c t ih =>
    rw [List.dropWhile_cons]
    by_cases h : c.isDigit = true
    · simpa [h] using ih
    · simp only [h]
      simpa [headIsDigit] using h

theorem endsInDigit_dropTrailingDigits (l : List Char) :
    endsInDigit (dropTrailingDigits l) = false := by
  rw [endsInDigit, dropTrailingDigits, List.reverse_reverse]
  exact headIsDigit_dropWhile l.reverse

theorem takeWhile_isDigit_of_head_false {l : List Char}
    (h : headIsDigit l = false) : l.takeWhile Char.isDigit = [] := by
  cases l with
  | nil => rfl
  | cons c t =>
    rw [List.takeWhile_cons]
    simp only [headIsDigit] at h
    simp [h]

theorem dropWhile_isDigit_of_head_false {l : List Char}
    (h : headIsDigit l = false) : l.dropWhile Char.isDigit = l := by
  cases l with
  | nil => rfl
  | cons c t =>
    rw [List.dropWhile_cons]
    simp only [headIsDigit] at h
    simp [h]

theorem takeTrailingDigits_append {p d : List Char}
    (hp : endsInDigit p = false) (hd : allDigits d = true) :
    takeTrailingDigits (p ++ d) = d := by
  rw [takeTrailingDigits, List.reverse_append]
  rw [List.takeWhile_append_of_pos (by
    intro a ha
    rw [allDigits, List.all_eq_true] at hd
    exact hd a (List.mem_reverse.mp ha))]
  rw [takeWhile_isDigit_of_head_false hp, List.append_nil, List.reverse_reverse]

theorem dropTrailingDigits_append {p d : List Char}
    (hp : endsInDigit p = false) (hd : allDigits d = true) :
    dropTrailingDigits (p ++ d) = p := by
  rw [dropTrailingDigits, List.reverse_append]
  rw [List.dropWhile_append_of_pos (by
    intro a ha
    rw [allDigits, List.all_eq_true] at hd
    exact hd a (List.mem_reverse.mp ha))]
  rw [dropWhile_isDigit_of_head_false hp, List.reverse_reverse]

theorem takeTrailingDigits_concat_nondigit {l : List Char} {c : Char}
    (h : c.isDigit = false) : takeTrailingDigits (l ++ [c]) = [] := by
  rw [takeTrailingDigits, List.reverse_append]
  simp only [List.reverse_cons, List.reverse_nil, List.nil_append,
    List.singleton_append, List.takeWhile_cons]
  simp [h]

theorem takeTrailingDigits_ne_nil_iff (l : List Char) :
    takeTrailingDigits l ≠ [] ↔ endsInDigit l = true := by
  rw [takeTrailingDigits, endsInDigit]
  cases hr : l.reverse with
  | nil => simp [headIsDigit]
  | cons c t =>
    rw [List.takeWhile_cons]
    by_cases h : c.isDigit = true <;> simp [h, headIsDigit]

/-! ## Supporting lemmas: the Identifier Sequencer -/

theorem pyMatch_of_trailing {s : List Char} (h : takeTrailingDigits s ≠ []) :
    pyMatch s = some (dropTrailingDigits s, takeTrailingDigits s, []) := by
  rw [pyMatch, if_pos h]

theorem increment_id_digit {s : List Char} (h : takeTrailingDigits s ≠ [])
    (n : Nat) :
    increment_id s n = dropTrailingDigits s ++
      zfill (takeTrailingDigits s).length
        (natRepr (digitsVal (takeTrailingDigits s) + n)) := by
  rw [increment_id, pyMatch_of_trailing h]
  simp

theorem pyMatch_none {s : List Char} (h1 : takeTrailingDigits s = [])
    (h2 : s.getLast? = some '\n' → takeTrailingDigits s.dropLast = []) :
    pyMatch s = none := by
  rw [pyMatch, if_neg (by simpa using h1), if_neg]
  rintro ⟨ha, hb⟩
  exact hb (h2 ha)

theorem increment_id_fallback {s : List Char} (h1 : takeTrailingDigits s = [])
    (h2 : s.getLast? = some '\n' → takeTrailingDigits s.dropLast = [])
    (n : Nat) :
    increment_id s n = s ++ ('-' :: natRepr (n + 1)) := by
  rw [increment_id, pyMatch_none h1 h2]

/-- Computation of the search on a string assembled as non-digit-ending
text, then a non-empty digit run, then an empty tail or a single final
newline: the search finds exactly the digit run. -/
theorem pyMatch_canonical {p z t : List Char} (hp : endsInDigit p = false)
    (hz : allDigits z = true) (hzn : z ≠ []) (ht : t = [] ∨ t = ['\n']) :
    pyMatch (p ++ (z ++ t)) = some (p, z, t) := by
  rcases ht with rfl | rfl
  · rw [List.append_nil]
    have htake := takeTrailingDigits_append hp hz
    have hdrop := dropTrailingDigits_append hp hz
    rw [pyMatch, if_pos (by rw [htake]; exact hzn), htake, hdrop]
  · have hnl : ('\n').isDigit = false := by decide
    have htake0 : takeTrailingDigits (p ++ (z ++ ['\n'])) = [] := by
      have := takeTrailingDigits_concat_nondigit (l := p ++ z) hnl
      rwa [List.append_assoc] at this
    have hlast : (p ++ (z ++ ['\n'])).getLast? = some '\n' := by
      rw [← List.append_assoc]
      exact List.getLast?_concat _
    have hdroplast : (p ++ (z ++ ['\n'])).dropLast = p ++ z := by
      rw [← List.append_assoc]
      exact List.dropLast_concat
    rw [pyMatch, if_neg (by simpa using htake0), if_pos]
    · rw [hdroplast, takeTrailingDigits_append hp hz,
        dropTrailingDigits_append hp hz]
    · refine ⟨hlast, ?_⟩
      rw [hdroplast, takeTrailingDigits_append hp hz]
      exact hzn

/-- Every output of the Sequencer, for every index, has the same fixed
shape `p ++ zfill w (natRepr (v + index)) ++ t`: a fixed non-digit-ending
part, a digit run rendering the incremented value, and a fixed tail that is
empty or a single newline. -/
theorem increment_id_form (s : List Char) :
    ∃ (p t : List Char) (v w : Nat),
      (t = [] ∨ t = ['\n']) ∧ endsInDigit p = false ∧
      ∀ m, increment_id s m = p ++ (zfill w (natRepr (v + m)) ++ t) := by
  rcases hm : pyMatch s with _ | ⟨p, d, t⟩
  · refine ⟨s ++ ['-'], [], 1, 0, Or.inl rfl, ?_, ?_⟩
    · rw [endsInDigit, List.reverse_append]
      rfl
    · intro m
      rw [increment_id, hm]
      have h0 : zfill 0 (natRepr (1 + m)) = natRepr (1 + m) :=
        zfill_of_le (Nat.zero_le _)
      rw [h0, List.append_nil, List.append_assoc, Nat.add_comm 1 m]
      rfl
  · -- which branch of `pyMatch` produced the match?
    rw [pyMatch] at hm
    by_cases h1 : takeTrailingDigits s ≠ []
    · rw [if_pos h1] at hm
      obtain ⟨hp, hd, htl⟩ : dropTrailingDigits s = p ∧
          takeTrailingDigits s = d ∧ ([] : List Char) = t := by
        have := Option.some.inj hm
        exact ⟨congrArg Prod.fst this,
          congrArg (fun x => x.2.1) this, congrArg (fun x => x.2.2) this⟩
      refine ⟨p, t, digitsVal d, d.length, Or.inl htl.symm, ?_, ?_⟩
      · rw [← hp]; exact endsInDigit_dropTrailingDigits s
      · intro m
        rw [increment_id, pyMatch, if_pos h1, hp, hd, ← htl]
    · rw [if_neg h1] at hm
      by_cases h2 : s.getLast? = some '\n' ∧ takeTrailingDigits s.dropLast ≠ []
      · rw [if_pos h2] at hm
        obtain ⟨hp, hd, htl⟩ : dropTrailingDigits s.dropLast = p ∧
            takeTrailingDigits s.dropLast = d ∧ (['\n'] : List Char) = t := by
          have := Option.some.inj hm
          exact ⟨congrArg Prod.fst this,
            congrArg (fun x => x.2.1) this, congrArg (fun x => x.2.2) this⟩
        refine ⟨p, t, digitsVal d, d.length, Or.inr htl.symm, ?_, ?_⟩
        · rw [← hp]; exact endsInDigit_dropTrailingDigits s.dropLast
        · intro m
          rw [increment_id, pyMatch, if_neg h1, if_pos h2, hp, hd, ← htl]
      · rw [if_neg h2] at hm
        exact absurd hm (by simp)

/-! ## Supporting lemmas: sanitisation and archive entry names -/

theorem sanitize_append (a b : List Char) :
    sanitize (a ++ b) = sanitize a ++ sanitize b :=
  List.map_append sanitizeChar a b

theorem sanitize_cons (c : Char) (l : List Char) :
    sanitize (c :: l) = sanitizeChar c :: sanitize l :=
  List.map_cons sanitizeChar c l

theorem sanitizeChar_of_isDigit {c : Char} (h : c.isDigit = true) :
    sanitizeChar c = c := by
  rw [sanitizeChar, if_neg]
  rintro (rfl | rfl) <;> exact absurd h (by decide)

theorem allDigits_cons {c : Char} {t : List Char} :
    allDigits (c :: t) = (c.isDigit && allDigits t) := by
  rw [allDigits, List.all_cons, allDigits]

theorem sanitize_of_allDigits {l : List Char} (h : allDigits l = true) :
    sanitize l = l := by
  induction l with
  | nil => rfl
  | cons c t ih =>
    rw [allDigits_cons, Bool.and_eq_true] at h
    rw [sanitize_cons, sanitizeChar_of_isDigit h.1, ih h.2]

/-- Two digit runs followed by non-digit-headed text coincide whenever the
assembled strings coincide. -/
theorem digits_append_inj {a b u v : List Char}
    (ha : allDigits a = true) (hb : allDigits b = true)
    (hu : headIsDigit u = false) (hv : headIsDigit v = false)
    (h : a ++ u = b ++ v) : a = b := by
  induction a generalizing b with
  | nil =>
    cases b with
    | nil => rfl
    | cons c bt =>
      exfalso
      rw [List.nil_append, List.cons_append] at h
      rw [h] at hu
      simp only [headIsDigit] at hu
      rw [allDigits_cons, Bool.and_eq_true] at hb
      rw [hu] at hb
      exact Bool.false_ne_true hb.1
  | cons c ta ih =>
    cases b with
    | nil =>
      exfalso
      rw [List.nil_append, List.cons_append] at h
      rw [← h] at hv
      simp only [headIsDigit] at hv
      rw [allDigits_cons, Bool.and_eq_true] at ha
      rw [hv] at ha
      exact Bool.false_ne_true ha.1
    | cons c' bt =>
      rw [List.cons_append, List.cons_append] at h
      injection h with h1 h2
      rw [allDigits_cons, Bool.and_eq_true] at ha hb
      rw [h1, ih ha.2 hb.2 h2]

/-- Within one batch, the archive entry name determines the loop index:
the sanitised identifier keeps its digit run intact (slashes are not
digits), the run is followed by an underscore or a newline, and the run's
numeric value is the start value plus the index. -/
theorem mkFilename_inj (startId : List Char) {m n : Nat} {x y : List Char}
    (h : mkFilename (increment_id startId m) x = mkFilename (increment_id startId n) y) :
    m = n := by
  obtain ⟨p, t, v, w, ht, hp, hform⟩ := increment_id_form startId
  have hexp : ∀ (k : Nat) (z : List Char),
      mkFilename (increment_id startId k) z =
        sanitize p ++ (zfill w (natRepr (v + k)) ++
          (sanitize t ++ ('_' :: sanitize (z ++ (".docx").data)))) := by
    intro k z
    simp only [mkFilename, hform k, sanitize_append, sanitize_cons,
      List.append_assoc, List.cons_append]
    rw [sanitize_of_allDigits (allDigits_zfill w (allDigits_natRepr (v + k)))]
    have h_ : sanitizeChar '_' = '_' := by decide
    rw [h_]
  rw [hexp m x, hexp n y] at h
  have h2 := List.append_cancel_left h
  have hhead : ∀ z : List Char,
      headIsDigit (sanitize t ++ ('_' :: sanitize (z ++ (".docx").data))) = false := by
    intro z
    rcases ht with rfl | rfl
    · rfl
    · rfl
  have hz := digits_append_inj
    (allDigits_zfill w (allDigits_natRepr (v + m)))
    (allDigits_zfill w (allDigits_natRepr (v + n)))
    (hhead x) (hhead y) h2
  have hval := congrArg digitsVal hz
  rw [digitsVal_zfill, digitsVal_zfill, digitsVal_natRepr, digitsVal_natRepr] at hval
  omega

/-! ## Supporting lemmas: the Batch Orchestrator -/

/-- What a successful run of the generation loop produces: one entry per
row, where the entry at position `n` is named from the identifier at index
`i + n` and the row's given name, and holds exactly the document the
renderer returned for that row's context under that identifier. -/
theorem processRows_ok_spec (render : Renderer) (startId : List Char) :
    ∀ (rows : List RowData) (i : Nat) (entries : List (List Char × Doc)),
      processRows render startId i rows = Except.ok entries →
      entries.length = rows.length ∧
      ∀ n (hn : n < rows.length) (hn' : n < entries.length),
        (entries.get ⟨n, hn'⟩).1 =
          mkFilename (increment_id startId (i + n)) (rows.get ⟨n, hn⟩).pName ∧
        render (buildContext (increment_id startId (i + n)) (rows.get ⟨n, hn⟩)) =
          Except.ok (entries.get ⟨n, hn'⟩).2 := by
  intro rows
  induction rows with
  | nil =>
    intro i entries h
    simp only [processRows] at h
    injection h with h
    subst h
    exact ⟨rfl, fun n hn => absurd hn (by simp)⟩
  | cons r rest ih =>
    intro i entries h
    simp only [processRows] at h
    rcases hr : render (buildContext (increment_id startId i) r) with e | doc <;>
      rw [hr] at h
    · exact absurd h (by simp)
    · rcases hpr : processRows render startId (i + 1) rest with e' | tail <;>
        rw [hpr] at h
      · exact absurd h (by simp)
      · injection h with h
        subst h
        obtain ⟨hlen, hspec⟩ := ih (i + 1) tail hpr
        refine ⟨by simp [hlen], ?_⟩
        intro n hn hn'
        cases n with
        | zero =>
          constructor
          · simp only [List.get]
            rw [Nat.add_zero]
          · simp only [List.get]
            rw [Nat.add_zero, hr]
        | succ n' =>
          have hn2 : n' < rest.length := by simpa using hn
          have hn2' : n' < tail.length := by simpa using hn'
          have hidx : i + (n' + 1) = (i + 1) + n' := by omega
          have := hspec n' hn2 hn2'
          constructor
          · simp only [List.get]
            rw [hidx]
            exact this.1
          · simp only [List.get]
            rw [hidx]
            exact this.2

/-- The generation loop aborts with the renderer's error as soon as one
row fails to render, whatever rows come after it. -/
theorem processRows_error_spec (render : Renderer) (startId : List Char) :
    ∀ (rows : List RowData) (i j : Nat) (hj : j < rows.length) (e : List Char),
      (∀ m (hm : m < j), ∃ d,
        render (buildContext (increment_id startId (i + m))
          (rows.get ⟨m, Nat.lt_trans hm hj⟩)) = Except.ok d) →
      render (buildContext (increment_id startId (i + j)) (rows.get ⟨j, hj⟩)) =
        Except.error e →
      processRows render startId i rows = Except.error e := by
  intro rows
  induction rows with
  | nil =>
    intro i j hj
    exact absurd hj (by simp)
  | cons r rest ih =>
    intro i j hj e hok hfail
    cases j with
    | zero =>
      simp only [List.get] at hfail
      rw [Nat.add_zero] at hfail
      simp only [processRows]
      rw [hfail]
    | succ j' =>
      obtain ⟨d0, hd0⟩ := hok 0 (Nat.succ_pos j')
      simp only [List.get] at hd0
      rw [Nat.add_zero] at hd0
      simp only [processRows]
      rw [hd0]
      have hj2 : j' < rest.length := by simpa using hj
      have hok2 : ∀ m (hm : m < j'), ∃ d,
          render (buildContext (increment_id startId ((i + 1) + m))
            (rest.get ⟨m, Nat.lt_trans hm hj2⟩)) = Except.ok d := by
        intro m hm
        obtain ⟨d, hd⟩ := hok (m + 1) (Nat.succ_lt_succ hm)
        refine ⟨d, ?_⟩
        have hidx : i + (m + 1) = (i + 1) + m := by omega
        rw [hidx] at hd
        exact hd
      have hfail2 : render (buildContext (increment_id startId ((i + 1) + j'))
          (rest.get ⟨j', hj2⟩)) = Except.error e := by
        have hidx : i + (j' + 1) = (i + 1) + j' := by omega
        rw [hidx] at hfail
        exact hfail
      rw [ih (i + 1) j' hj2 e hok2 hfail2]

theorem generate_ok_elim {render : Renderer} {startId : List Char}
    {table : List RowData} {select : List Bool}
    {entries : List (List Char × Doc)} {c : Nat} {s0 : List Char}
    (h : generate render startId table select = GenOutcome.ok entries c s0) :
    processRows render startId 0 (selectedRows table select) = Except.ok entries ∧
    c = (selectedRows table select).length ∧ s0 = startId := by
  simp only [generate] at h
  by_cases h0 : (selectedRows table select).length = 0
  · rw [if_pos h0] at h
    exact absurd h (by simp)
  · rw [if_neg h0] at h
    rcases hpr : processRows render startId 0 (selectedRows table select) with e | es <;>
      rw [hpr] at h
    · exact absurd h (by simp)
    · injection h with h1 h2 h3
      subst h1; subst h2; subst h3
      exact ⟨rfl, rfl, rfl⟩

theorem generate_error_of_processRows {render : Renderer} {startId : List Char}
    {table : List RowData} {select : List Bool} {e : List Char}
    (h0 : (selectedRows table select).length ≠ 0)
    (h : processRows render startId 0 (selectedRows table select) = Except.error e) :
    generate render startId table select =
      GenOutcome.failure ((("An error occurred: ").data) ++ e) := by
  simp only [generate]
  rw [if_neg h0, h]

/-! ## Claim theorems -/

/-- C1: for every start string whose maximal trailing suffix of decimal
digits is non-empty, with textual width `w` and numeric value `v`, and
every `n ≥ 0`, `Sequencer.nth(start, n)` equals the non-digit part of
`start` followed by `v + n` rendered in decimal and left-padded with zeros
to width `w`; the padded run parses back to exactly `v + n` (no truncation,
no fixed-width overflow) and its width is the maximum of `w` and the exact
decimal length of `v + n` (the width grows when needed); in particular
nth("X-098", 5) = "X-103" and nth("X-998", 5) = "X-1003". -/
theorem claim_C1 :
    (∀ (s : List Char) (n : Nat), takeTrailingDigits s ≠ [] →
      increment_id s n = dropTrailingDigits s ++
        zfill (takeTrailingDigits s).length
          (natRepr (digitsVal (takeTrailingDigits s) + n)) ∧
      digitsVal (zfill (takeTrailingDigits s).length
          (natRepr (digitsVal (takeTrailingDigits s) + n))) =
        digitsVal (takeTrailingDigits s) + n ∧
      (zfill (takeTrailingDigits s).length
          (natRepr (digitsVal (takeTrailingDigits s) + n))).length =
        max (takeTrailingDigits s).length
          (natRepr (digitsVal (takeTrailingDigits s) + n)).length) ∧
    increment_id (("X-098").data) 5 = ("X-103").data ∧
    increment_id (("X-998").data) 5 = ("X-1003").data := by
  refine ⟨?_, by decide, by decide⟩
  intro s n h
  exact ⟨increment_id_digit h n,
    (digitsVal_zfill _ _).trans (digitsVal_natRepr _), zfill_length _ _⟩

/-- Witness for C1 at start "X-098" and n = 5. -/
theorem claim_C1_witness :
    takeTrailingDigits (("X-098").data) ≠ [] ∧
    increment_id (("X-098").data) 5 = dropTrailingDigits (("X-098").data) ++
      zfill (takeTrailingDigits (("X-098").data)).length
        (natRepr (digitsVal (takeTrailingDigits (("X-098").data)) + 5)) :=
  ⟨by decide, (claim_C1.1 (("X-098").data) 5 (by decide)).1⟩

/-- C2: for every selection and start identifier, the Batch Orchestrator
processes the selected rows in original table order (the boolean selection
mask keeps table order whatever order rows were selected in) and assigns to
the row at 0-based position `n` of the ordered selection the identifier
`Sequencer.nth(start, n)` — its entry is named from that identifier and its
document is rendered from the context carrying that identifier; in
particular three rows from start "CT-001" receive "CT-001", "CT-002",
"CT-003". -/
theorem claim_C2 :
    (∀ (render : Renderer) (startId : List Char) (table : List RowData)
      (select : List Bool) (entries : List (List Char × Doc)) (c : Nat)
      (s0 : List Char),
      generate render startId table select = GenOutcome.ok entries c s0 →
      entries.length = (selectedRows table select).length ∧
      ∀ n (hn : n < (selectedRows table select).length) (hn' : n < entries.length),
        (entries.get ⟨n, hn'⟩).1 =
          mkFilename (increment_id startId n)
            ((selectedRows table select).get ⟨n, hn⟩).pName ∧
        render (buildContext (increment_id startId n)
            ((selectedRows table select).get ⟨n, hn⟩)) =
          Except.ok (entries.get ⟨n, hn'⟩).2) ∧
    [increment_id (("CT-001").data) 0, increment_id (("CT-001").data) 1,
      increment_id (("CT-001").data) 2] =
      [("CT-001").data, ("CT-002").data, ("CT-003").data] := by
  constructor
  · intro render startId table select entries c s0 h
    obtain ⟨hpr, _, _⟩ := generate_ok_elim h
    obtain ⟨hlen, hspec⟩ := processRows_ok_spec render startId _ 0 entries hpr
    refine ⟨hlen, ?_⟩
    intro n hn hn'
    have := hspec n hn hn'
    rwa [Nat.zero_add] at this
  · decide

/-- Witness for C2: a concrete successful three-row batch from "CT-001". -/
theorem claim_C2_witness :
    (entries3.get ⟨1, by decide⟩).1 = ("CT-002_b.docx").data := by
  have h := (claim_C2.1 renderOk (("CT-001").data) table3 [true, true, true]
      entries3 3 (("CT-001").data) (by decide)).2 1 (by decide) (by decide)
  exact h.1.trans (by decide)

/-- C3 counterexample: the claim asserts `nth(start, 0) = start` for a
start with no trailing digits, but the code appends "-1" already at
`n = 0`: `nth("A", 0) = "A-1" ≠ "A"`. -/
theorem claim_C3_counterexample :
    increment_id (("A").data) 0 ≠ ("A").data ∧
    increment_id (("A").data) 0 = ("A-1").data := by
  exact ⟨by decide, by decide⟩

/-- C3 as amended: for every start string in which the search finds no
trailing digit run (the string neither ends in a decimal digit nor in a
decimal digit directly before one final newline), `nth(start, n)` equals
`start + "-" + (n+1)` for every `n ≥ 0` — including `n = 0`, so the very
first identifier already carries the "-1" suffix — and each output is
distinct from `start` and from every earlier output. -/
theorem claim_C3_amended :
    ∀ (s : List Char) (n : Nat), takeTrailingDigits s = [] →
      (s.getLast? = some '\n' → takeTrailingDigits s.dropLast = []) →
      increment_id s n = s ++ ('-' :: natRepr (n + 1)) ∧
      increment_id s n ≠ s ∧
      ∀ m, m < n → increment_id s m ≠ increment_id s n := by
  intro s n h1 h2
  refine ⟨increment_id_fallback h1 h2 n, ?_, ?_⟩
  · rw [increment_id_fallback h1 h2 n]
    intro hc
    have hlen := congrArg List.length hc
    rw [List.length_append, List.length_cons] at hlen
    omega
  · intro m hm hc
    rw [increment_id_fallback h1 h2 m, increment_id_fallback h1 h2 n] at hc
    have h3 := List.append_cancel_left hc
    injection h3 with _ h4
    exact absurd (natRepr_injective h4) (by omega)

/-- Witness for the amended C3 at start "A" and n = 2. -/
theorem claim_C3_amended_witness :
    increment_id (("A").data) 2 = ("A-3").data := by
  have h := (claim_C3_amended (("A").data) 2 (by decide) (by decide)).1
  exact h.trans (by decide)

/-- C4: the code drops leading zeros of a numeric-looking identifier
column.  The CSV reader is called with default dtype inference
(src/app.py, line 44), so a column whose cells are all digit strings is
stored as integers, and the `str` coercion of line 117 renders "0123456"
as "123456" in the context — against the specification, which requires the
value to reach the context verbatim as text. -/
theorem claim_C4_bug :
    inferColumn [("0123456").data] = [PdValue.int 123456] ∧
    pdStr (PdValue.int 123456) = ("123456").data ∧
    ("123456").data ≠ ("0123456").data := by
  exact ⟨by decide, by decide, by decide⟩

/-- C5: within one batch run the archive entry names are pairwise
distinct, for every renderer, start identifier, table and selection —
including adversarial given names: the identifier's digit run is followed
by a non-digit, so the entry name determines the loop index. -/
theorem claim_C5 :
    ∀ (render : Renderer) (startId : List Char) (table : List RowData)
      (select : List Bool) (entries : List (List Char × Doc)) (c : Nat)
      (s0 : List Char),
      generate render startId table select = GenOutcome.ok entries c s0 →
      (entries.map Prod.fst).Nodup := by
  intro render startId table select entries c s0 h
  obtain ⟨hpr, _, _⟩ := generate_ok_elim h
  obtain ⟨hlen, hspec⟩ := processRows_ok_spec render startId _ 0 entries hpr
  rw [List.nodup_iff_injective_get]
  rintro ⟨a, ha⟩ ⟨b, hb⟩ hab
  have ha' : a < entries.length := by simpa using ha
  have hb' : b < entries.length := by simpa using hb
  have ha2 : a < (selectedRows table select).length := by rw [← hlen]; exact ha'
  have hb2 : b < (selectedRows table select).length := by rw [← hlen]; exact hb'
  have h1 := (hspec a ha2 ha').1
  have h2 := (hspec b hb2 hb').1
  simp only [List.get_eq_getElem, List.getElem_map] at hab h1 h2
  rw [h1, h2] at hab
  simp only [Nat.zero_add] at hab
  exact Fin.ext (mkFilename_inj startId hab)

/-- Witness for C5: the entry names of a concrete successful batch. -/
theorem claim_C5_witness : (entries3.map Prod.fst).Nodup :=
  claim_C5 renderOk (("CT-001").data) table3 [true, true, true] entries3 3
    (("CT-001").data) (by decide)

/-- C6 counterexample: the surfaced error does not identify the failing
row.  Two batches that fail on different rows (the first row here, the
second row there) surface the identical message, so the message cannot
carry "which row" as the claim asserts. -/
theorem claim_C6_counterexample :
    generate renderDemo (("A").data)
        [demoRow (("BAD").data), demoRow (("x").data)] [true, true] =
      GenOutcome.failure (("An error occurred: boom").data) ∧
    generate renderDemo (("A").data)
        [demoRow (("x").data), demoRow (("BAD").data)] [true, true] =
      GenOutcome.failure (("An error occurred: boom").data) := by
  exact ⟨by decide, by decide⟩

/-- C6 as amended: on any single-row render failure the whole batch
aborts — no archive, not even a partial one, is delivered — and the
surfaced error is the underlying error text behind the fixed banner
"An error occurred: "; it carries whatever the renderer's exception says
but not, in general, the row position or field. -/
theorem claim_C6_amended :
    ∀ (render : Renderer) (startId : List Char) (table : List RowData)
      (select : List Bool) (j : Nat) (e : List Char)
      (hj : j < (selectedRows table select).length),
      (∀ m (hm : m < j), ∃ d,
        render (buildContext (increment_id startId m)
          ((selectedRows table select).get ⟨m, Nat.lt_trans hm hj⟩)) =
            Except.ok d) →
      render (buildContext (increment_id startId j)
          ((selectedRows table select).get ⟨j, hj⟩)) = Except.error e →
      generate render startId table select =
        GenOutcome.failure ((("An error occurred: ").data) ++ e) ∧
      ∀ entries c s0,
        generate render startId table select ≠ GenOutcome.ok entries c s0 := by
  intro render startId table select j e hj hok hfail
  have h0 : (selectedRows table select).length ≠ 0 := by omega
  have hok0 : ∀ m (hm : m < j), ∃ d,
      render (buildContext (increment_id startId (0 + m))
        ((selectedRows table select).get ⟨m, Nat.lt_trans hm hj⟩)) =
          Except.ok d := by
    intro m hm
    rw [Nat.zero_add]
    exact hok m hm
  have hfail0 : render (buildContext (increment_id startId (0 + j))
      ((selectedRows table select).get ⟨j, hj⟩)) = Except.error e := by
    rw [Nat.zero_add]
    exact hfail
  have hpr := processRows_error_spec render startId _ 0 j hj e hok0 hfail0
  have hgen := generate_error_of_processRows h0 hpr
  refine ⟨hgen, ?_⟩
  intro entries c s0 hc
  rw [hgen] at hc
  exact absurd hc (by simp)

/-- Witness for the amended C6: a one-row batch whose render fails. -/
theorem claim_C6_amended_witness :
    generate renderDemo (("A").data) [demoRow (("BAD").data)] [true] =
      GenOutcome.failure (("An error occurred: boom").data) := by
  have h := (claim_C6_amended renderDemo (("A").data)
      [demoRow (("BAD").data)] [true] 0 (("boom").data) (by decide)
      (fun m hm => absurd hm (by omega)) rfl).1
  exact h.trans (by decide)

/-- C7: a batch invocation with an empty selection stops with the
empty-selection outcome before any work begins — the outcome does not
depend on the renderer, so no identifier is consumed and no row rendered —
and produces no archive; with a non-empty selection that outcome never
occurs. -/
theorem claim_C7 :
    ∀ (render render2 : Renderer) (startId : List Char)
      (table : List RowData) (select : List Bool),
      (selectedRows table select = [] →
        generate render startId table select = GenOutcome.emptySelection ∧
        generate render startId table select =
          generate render2 startId table select) ∧
      (selectedRows table select ≠ [] →
        generate render startId table select ≠ GenOutcome.emptySelection) := by
  intro render render2 startId table select
  constructor
  · intro h
    have h0 : (selectedRows table select).length = 0 := by rw [h]; rfl
    constructor
    · simp only [generate]
      rw [if_pos h0]
    · simp only [generate]
      rw [if_pos h0, if_pos h0]
  · intro h
    have h0 : (selectedRows table select).length ≠ 0 := by
      simpa [List.length_eq_zero] using h
    simp only [generate]
    rw [if_neg h0]
    rcases hpr : processRows render startId 0 (selectedRows table select) with e | es <;>
      simp

/-- Witness for C7: an all-unselected table and a selected one. -/
theorem claim_C7_witness :
    generate renderOk (("A").data) [demoRow (("x").data)] [false] =
      GenOutcome.emptySelection ∧
    generate renderOk (("A").data) [demoRow (("x").data)] [true] ≠
      GenOutcome.emptySelection :=
  ⟨((claim_C7 renderOk renderDemo (("A").data) [demoRow (("x").data)]
      [false]).1 (by decide)).1,
   (claim_C7 renderOk renderDemo (("A").data) [demoRow (("x").data)]
      [true]).2 (by decide)⟩

/-- C8: the Row Context Builder's output has exactly the seven keys
contract_id, prefix, name, surname, id_card, address, sign_name, with
contract_id the row's sequence identifier and sign_name the prefix, given
name and surname joined by single spaces; for ("Mr.", "Somchai", "Suksan")
the sign name is "Mr. Somchai Suksan". -/
theorem claim_C8 :
    (∀ (cid : List Char) (r : RowData),
      (buildContext cid r).map Prod.fst =
        [("contract_id").data, ("prefix").data, ("name").data,
         ("surname").data, ("id_card").data, ("address").data,
         ("sign_name").data] ∧
      (buildContext cid r).lookup (("contract_id").data) = some cid ∧
      (buildContext cid r).lookup (("sign_name").data) =
        some (r.pfx ++ (' ' :: r.pName) ++ (' ' :: r.pSurname))) ∧
    (buildContext (("C-001").data)
        (RowData.mk (("Mr.").data) (("Somchai").data) (("Suksan").data)
          [] [])).lookup (("sign_name").data) =
      some (("Mr. Somchai Suksan").data) := by
  constructor
  · intro cid r
    exact ⟨rfl, rfl, rfl⟩
  · decide

/-- C9: the claimed fallback is broken in the code.  The failed UTF-8
attempt consumes the uploaded stream and the code never rewinds it, so the
legacy-encoding retry reads from the end of the stream: for every
UTF-8-invalid non-empty payload the retry finds nothing to parse and the
whole ingestion surfaces the empty-data error — it never decodes the
original bytes, however valid they are under the legacy encoding.
Concretely, the payload 0xA1 is UTF-8-invalid and would decode to U+0E01
under the legacy encoding, yet ingestion fails instead of succeeding on
the second attempt. -/
theorem claim_C9_bug :
    (∀ payload : List Nat, utf8Decode payload = none → payload ≠ [] →
      readCsv payload = CsvOutcome.emptyDataError) ∧
    utf8Decode [0xA1] = none ∧
    tis620Decode [0xA1] = some [0x0E01] ∧
    readCsv [0xA1] = CsvOutcome.emptyDataError ∧
    readCsv [0xA1] ≠ CsvOutcome.ok [0x0E01] := by
  refine ⟨?_, by decide, by decide, by decide, by decide⟩
  intro payload hu hne
  cases payload with
  | nil => exact absurd rfl hne
  | cons b bs =>
    simp only [readCsv, readCsvAttempt, ByteStream.remaining, List.drop_zero,
      List.isEmpty_cons]
    rw [hu]
    simp [List.drop_length]

/-- Witness for C9's bug theorem: the fallback path at the concrete
UTF-8-invalid payload 0xA0. -/
theorem claim_C9_bug_witness : readCsv [0xA0] = CsvOutcome.emptyDataError :=
  claim_C9_bug.1 [0xA0] (by decide) (by decide)

/-- C10: incrementing composes additively in both branches: stepping the
sequencer by `m` and then by `k` from the intermediate identifier lands on
the identifier obtained by one combined step of `m + k`. -/
theorem claim_C10 (s : List Char) (m k : Nat) :
    increment_id (increment_id s m) k = increment_id s (m + k) := by
  obtain ⟨p, t, v, w, ht, hp, hform⟩ := increment_id_form s
  rw [hform m, hform (m + k)]
  have hz : allDigits (zfill w (natRepr (v + m))) = true :=
    allDigits_zfill w (allDigits_natRepr (v + m))
  have hzn : zfill w (natRepr (v + m)) ≠ [] :=
    zfill_ne_nil w (natRepr_ne_nil (v + m))
  have hmatch := pyMatch_canonical hp hz hzn ht
  simp only [increment_id, hmatch]
  rw [digitsVal_zfill, digitsVal_natRepr, zfill_length]
  rw [zfill_pad_absorb _ (natRepr_length_mono (Nat.le_add_right (v + m) k))]
  rw [Nat.add_assoc]

end ContractWow
